import Mathlib

/-!
Verification of the clip-sourcing and assembly pipeline of `main.py`
(Calm Loop uploader).

The development shallowly embeds the decision logic of
`pick_and_download_for_type` and its helpers.  Media files are modelled by
their probe results (duration in seconds as a rational number, presence of
an audio track, optional mean loudness in dB); the external ffmpeg/ffprobe
and network operations are abstracted into an environment of functions
(`Env`, `RunEnv`) whose results drive the control flow exactly as the
corresponding subprocess results do in the source.  Durations use `ℚ` in
place of Python floats; Python `int(...)` truncation on the nonnegative
durations in play is `Int.floor`.  Re-encoding (`normalize_and_reencode`)
is modelled as preserving duration while the environment chooses the audio
properties of the produced file; trimming with `ffmpeg -t t` is modelled as
capping the duration at `t` while preserving audio properties; `ffmpeg`
concat of segments yields the sum of the segment durations; an unhandled
exception inside one attempt is modelled as that attempt failing.
-/

namespace CalmLoop

/-- Record of one downloaded clip, mirroring the tuple
`(clip_path, dur, aud, mv)` built at lines 350-356 of `main.py`
(the local path is irrelevant to the decision logic and omitted):
probed duration, presence of an audio stream, and optional mean volume. -/
structure Clip where
  dur : ℚ
  hasAudio : Bool
  mv : Option ℚ
deriving DecidableEq

/-- A produced media file, described by its probe results. -/
structure MediaFile where
  dur : ℚ
  hasAudio : Bool
  mv : Option ℚ
deriving DecidableEq

/-- Embedding of `audio_ok(path, min_db)` (main.py lines 122-128): requires
an audio stream, a measurable mean volume, and mean volume strictly above
the floor. -/
def audio_ok (f : MediaFile) (min_db : ℚ) : Bool :=
  if f.hasAudio = false then false
  else
    match f.mv with
    | none => false
    | some v => decide (min_db < v)

/-- The audio pre-filter applied to pool entries:
`t[2] and (t[3] is None or t[3] > AUDIO_MIN_DB)` (main.py lines 397 and 418).
Note that an absent mean volume passes this filter. -/
def preFilterPass (mdb : ℚ) (c : Clip) : Bool :=
  c.hasAudio &&
    (match c.mv with
     | none => true
     | some v => decide (mdb < v))

/-- The full filter for single-clip candidates (main.py line 397):
`t[1] >= target_min_s` plus the audio pre-filter. -/
def singlesPred (mdb mn : ℚ) (c : Clip) : Bool :=
  decide (mn ≤ c.dur) && preFilterPass mdb c

/-- Loudness key used by the single-clip sort (main.py line 398):
`x[3] if x[3] is not None else -999`. -/
def mvKeyS (c : Clip) : ℚ := c.mv.getD (-999)

/-- Loudness key used by the loop-fallback sort (main.py line 464):
`x[3] if x[3] is not None else 0`. -/
def mvKeyL (c : Clip) : ℚ := c.mv.getD 0

/-- Python's `sorted(..., key=lambda x: (-x[1], -(x[3] ...)))` at main.py
line 398 orders ascending by the key `(-dur, -mvKeyS)`; `SingleLe a b` is
that lexicographic comparison. -/
def SingleLe (a b : Clip) : Prop :=
  b.dur < a.dur ∨ (a.dur = b.dur ∧ mvKeyS b ≤ mvKeyS a)

instance : DecidableRel SingleLe :=
  fun a b =>
    inferInstanceAs (Decidable (b.dur < a.dur ∨ (a.dur = b.dur ∧ mvKeyS b ≤ mvKeyS a)))

/-- Python's `sorted(..., key=lambda x: (-x[1], x[3] if x[3] is not None
else 0))` at main.py line 464 orders ascending by `(-dur, mvKeyL)`;
`LoopLe a b` is that lexicographic comparison.  Note the loudness component
is NOT negated there, unlike line 398. -/
def LoopLe (a b : Clip) : Prop :=
  b.dur < a.dur ∨ (a.dur = b.dur ∧ mvKeyL a ≤ mvKeyL b)

instance : DecidableRel LoopLe :=
  fun a b =>
    inferInstanceAs (Decidable (b.dur < a.dur ∨ (a.dur = b.dur ∧ mvKeyL a ≤ mvKeyL b)))

theorem SingleLe_refl (a : Clip) : SingleLe a a := Or.inr ⟨rfl, le_refl _⟩

theorem SingleLe_total (a b : Clip) : SingleLe a b ∨ SingleLe b a := by
  rcases lt_trichotomy a.dur b.dur with h | h | h
  · exact Or.inr (Or.inl h)
  · rcases le_total (mvKeyS b) (mvKeyS a) with hk | hk
    · exact Or.inl (Or.inr ⟨h, hk⟩)
    · exact Or.inr (Or.inr ⟨h.symm, hk⟩)
  · exact Or.inl (Or.inl h)

theorem SingleLe_trans (a b c : Clip) :
    SingleLe a b → SingleLe b c → SingleLe a c := by
  rintro (h1 | ⟨e1, k1⟩) (h2 | ⟨e2, k2⟩)
  · exact Or.inl (lt_trans h2 h1)
  · exact Or.inl (lt_of_eq_of_lt e2.symm h1)
  · exact Or.inl (lt_of_lt_of_eq h2 e1.symm)
  · exact Or.inr ⟨e1.trans e2, le_trans k2 k1⟩

instance : IsTotal Clip SingleLe := ⟨SingleLe_total⟩

instance : IsTrans Clip SingleLe := ⟨fun a b c => SingleLe_trans a b c⟩

theorem LoopLe_refl (a : Clip) : LoopLe a a := Or.inr ⟨rfl, le_refl _⟩

theorem LoopLe_total (a b : Clip) : LoopLe a b ∨ LoopLe b a := by
  rcases lt_trichotomy a.dur b.dur with h | h | h
  · exact Or.inr (Or.inl h)
  · rcases le_total (mvKeyL a) (mvKeyL b) with hk | hk
    · exact Or.inl (Or.inr ⟨h, hk⟩)
    · exact Or.inr (Or.inr ⟨h.symm, hk⟩)
  · exact Or.inl (Or.inl h)

theorem LoopLe_trans (a b c : Clip) :
    LoopLe a b → LoopLe b c → LoopLe a c := by
  rintro (h1 | ⟨e1, k1⟩) (h2 | ⟨e2, k2⟩)
  · exact Or.inl (lt_trans h2 h1)
  · exact Or.inl (lt_of_eq_of_lt e2.symm h1)
  · exact Or.inl (lt_of_lt_of_eq h2 e1.symm)
  · exact Or.inr ⟨e1.trans e2, le_trans k1 k2⟩

instance : IsTotal Clip LoopLe := ⟨LoopLe_total⟩

instance : IsTrans Clip LoopLe := ⟨fun a b c => LoopLe_trans a b c⟩

/-- Trimming a file with `ffmpeg -t t` (main.py lines 410, 431): the result
keeps the audio properties and has duration capped at `t`. -/
def trimTo (f : MediaFile) (t : ℚ) : MediaFile :=
  { dur := min f.dur t, hasAudio := f.hasAudio, mv := f.mv }

/-- Environment of external (subprocess) effects consumed by one assembly
attempt.  Each field records the outcome the corresponding ffmpeg/ffprobe
call would produce:
`silenceSrc` — `has_long_silence` on a downloaded clip (line 401);
`reencode` — `normalize_and_reencode` (line 405): `none` on failure,
otherwise the audio-stream presence and mean volume of the re-encoded file
(duration is preserved by re-encoding);
`silenceRe` — `has_long_silence` on the re-encoded file (line 406);
`trimOk` — whether the per-segment trim at line 431 succeeds;
`concatMeta` — `concat_and_reencode` (line 442): `none` on failure, else
the audio properties of the combined file (its duration is the sum of the
trimmed segment durations);
`overlayMeta` — `overlay_birds_if_needed` (line 447): `none` on failure,
else the mean volume of the overlaid file (which has an audio track);
`bgMeta` — the background-music fallback at lines 450-453: `none` on
failure, else the audio properties of the produced file;
`loopMeta` — `loop_to_target` (line 467): `none` on failure, else the
audio properties of the looped file. -/
structure Env where
  silenceSrc : Clip → Bool
  reencode : Clip → Option (Bool × Option ℚ)
  silenceRe : MediaFile → Bool
  trimOk : Clip → Bool
  concatMeta : List Clip → Option (Bool × Option ℚ)
  overlayMeta : MediaFile → Option (Option ℚ)
  bgMeta : MediaFile → Option (Bool × Option ℚ)
  loopMeta : Clip → Option (Bool × Option ℚ)

/-- Which assembly state produced a returned file (instrumentation of the
return points at main.py lines 412, 460, 448, 455 and 468). -/
inductive StateTag
  | single
  | concatenated
  | overlay
  | bgFallback
  | looped
deriving DecidableEq

/-- Output categories modelled here; the `shorts` branch of
`pick_and_download_for_type` returns before the code modelled by
`assembleLV` and is outside this development's scope. -/
inductive VType
  | long
  | very_long
deriving DecidableEq

/-- The sorted single-clip candidate list (main.py lines 397-398):
filter by `singlesPred`, then stable-sort by descending duration with
descending loudness tie-break.  `List.insertionSort` is a stable sort, so
it computes the same list as Python's stable `sorted`. -/
def singleCandidates (mdb mn : ℚ) (pool : List Clip) : List Clip :=
  List.insertionSort SingleLe (pool.filter (singlesPred mdb mn))

/-- The candidate loop of the single-clip state (main.py lines 399-415):
skip a candidate on long silence, failed re-encode, failed audio gate, or
long silence after re-encode; accept the first survivor, hard-trimming it
to `mx` seconds when its re-encoded duration exceeds `mx` (lines 408-411). -/
def singleFitLoop (env : Env) (mdb mx : ℚ) : List Clip → Option MediaFile
  | [] => none
  | c :: rest =>
    if env.silenceSrc c then singleFitLoop env mdb mx rest
    else
      match env.reencode c with
      | none => singleFitLoop env mdb mx rest
      | some (ha, mv) =>
        if audio_ok ⟨c.dur, ha, mv⟩ mdb && !env.silenceRe ⟨c.dur, ha, mv⟩ then
          if mx < c.dur then some (trimTo ⟨c.dur, ha, mv⟩ mx)
          else some ⟨c.dur, ha, mv⟩
        else singleFitLoop env mdb mx rest

/-- The whole SingleClipFit state (main.py lines 396-416). -/
def singleClipFit (env : Env) (mdb mn mx : ℚ) (pool : List Clip) : Option MediaFile :=
  singleFitLoop env mdb mx (singleCandidates mdb mn pool)

/-- Length of one trimmed concatenation segment (main.py lines 428-436):
`int(min(dur, 180))`.  Durations in play are positive, so Python's
truncation agrees with the floor. -/
def segLen (c : Clip) : ℤ := (min c.dur 180).floor

/-- The accumulation loop of the concatenation state (main.py lines
426-437): walk the acceptable pool in order, skip clips whose trim fails,
append trimmed segments while summing `int(trim_t)`, and stop as soon as
the running total reaches `target_min_s`.  Returns the chosen segments (in
order) and the final total. -/
def accumulate (trimOk : Clip → Bool) (mn : ℚ) : List Clip → ℤ → List Clip × ℤ
  | [], total => ([], total)
  | c :: rest, total =>
    if trimOk c then
      if mn ≤ ((total + segLen c : ℤ) : ℚ) then ([c], total + segLen c)
      else
        (c :: (accumulate trimOk mn rest (total + segLen c)).1,
          (accumulate trimOk mn rest (total + segLen c)).2)
    else accumulate trimOk mn rest total

/-- The background-music fallback (main.py lines 449-458): loop the
fallback track under the combined file (`-shortest` keeps the combined
duration) and re-check the gate; on a failed gate the attempt fails. -/
def bgStep (env : Env) (mdb : ℚ) (combined : MediaFile) :
    Option (MediaFile × StateTag) :=
  match env.bgMeta combined with
  | none => none
  | some (ha, mv) =>
    if audio_ok ⟨combined.dur, ha, mv⟩ mdb then
      some (⟨combined.dur, ha, mv⟩, StateTag.bgFallback)
    else none

/-- The concatenation return path (main.py lines 440-460): build the
combined file (duration = accumulated total), and if it fails the audio
gate try the birds overlay, then the background-music fallback.  There is
no trim of the combined file to `target_max_s` anywhere on this path. -/
def concatPath (env : Env) (mdb : ℚ) (segs : List Clip) (total : ℤ) :
    Option (MediaFile × StateTag) :=
  match env.concatMeta segs with
  | none => none
  | some (ha, mv) =>
    if audio_ok ⟨(total : ℚ), ha, mv⟩ mdb then
      some (⟨(total : ℚ), ha, mv⟩, StateTag.concatenated)
    else
      match env.overlayMeta ⟨(total : ℚ), ha, mv⟩ with
      | none => bgStep env mdb ⟨(total : ℚ), ha, mv⟩
      | some omv =>
        if audio_ok ⟨(total : ℚ), true, omv⟩ mdb then
          some (⟨(total : ℚ), true, omv⟩, StateTag.overlay)
        else bgStep env mdb ⟨(total : ℚ), ha, mv⟩

/-- The loop-fallback clip choice `sorted(acceptable, key=lambda x:
(-x[1], x[3] if x[3] is not None else 0))[0]` (main.py line 464). -/
def loopBest (acceptable : List Clip) : Option Clip :=
  (List.insertionSort LoopLe acceptable).head?

/-- The loop-extension fallback (main.py lines 462-468): loop the chosen
clip to `int(target_min_s)` seconds (`loop_to_target`, line 307) and apply
the audio gate once more. -/
def loopPath (env : Env) (mdb mn : ℚ) (acceptable : List Clip) :
    Option (MediaFile × StateTag) :=
  match loopBest acceptable with
  | none => none
  | some best =>
    match env.loopMeta best with
    | none => none
    | some (ha, mv) =>
      if audio_ok ⟨((mn.floor : ℤ) : ℚ), ha, mv⟩ mdb then
        some (⟨((mn.floor : ℤ) : ℚ), ha, mv⟩, StateTag.looped)
      else none

/-- The concatenation-or-loop part of an attempt (main.py lines 418-473):
filter the pool by the audio pre-filter; fail if nothing is acceptable;
accumulate trimmed segments; if the total reached `target_min_s` take the
concatenation path, otherwise the loop fallback. -/
def concatOrLoop (env : Env) (mdb mn : ℚ) (pool : List Clip) :
    Option (MediaFile × StateTag) :=
  if (pool.filter (preFilterPass mdb)).isEmpty then none
  else
    if mn ≤ (((accumulate env.trimOk mn (pool.filter (preFilterPass mdb)) 0).2 : ℤ) : ℚ) then
      concatPath env mdb
        (accumulate env.trimOk mn (pool.filter (preFilterPass mdb)) 0).1
        (accumulate env.trimOk mn (pool.filter (preFilterPass mdb)) 0).2
    else loopPath env mdb mn (pool.filter (preFilterPass mdb))

/-- One assembly attempt for the long/very-long categories (main.py lines
396-473).  The SingleClipFit block is guarded by `if video_type == "long"`
(line 396), so it runs only for `long`; both categories then fall through
to `concatOrLoop`. -/
def assembleLV (env : Env) (vt : VType) (mdb mn mx : ℚ) (pool : List Clip) :
    Option (MediaFile × StateTag) :=
  match (if vt = VType.long then singleClipFit env mdb mn mx pool else none) with
  | some f => some (f, StateTag.single)
  | none => concatOrLoop env mdb mn pool

/-- Embedding of `MAX_DOWNLOAD_CANDIDATES` (main.py line 76, default 30). -/
def MAX_DOWNLOAD_CANDIDATES : Nat := 30

/-- The candidate aggregation of one attempt (main.py lines 332-339):
the six per-provider result lists are concatenated in order and the
aggregate is shuffled in place.  `random.shuffle` produces some permutation
of its input, abstracted here as a caller-supplied `shuffle` function.
There is no duplicate removal on the aggregate. -/
def gatherCandidates (provs : List (List String)) (shuffle : List String → List String) :
    List String :=
  shuffle provs.flatten

/-- The URLs the download loop actually iterates over:
`candidates[:MAX_DOWNLOAD_CANDIDATES]` (main.py line 344). -/
def attemptedUrls (provs : List (List String)) (shuffle : List String → List String) :
    List String :=
  (gatherCandidates provs shuffle).take MAX_DOWNLOAD_CANDIDATES

/-- The download-and-qualify loop (main.py lines 343-357).  `fetch u` is
`none` when the download of `u` fails, otherwise the probe results of the
downloaded file.  A clip with `dur <= 0` is deleted and skipped; otherwise
it is appended, and the loop stops once 12 clips are collected. -/
def acquirePool (fetch : String → Option Clip) : List String → List Clip → List Clip
  | [], acc => acc
  | u :: rest, acc =>
    match fetch u with
    | none => acquirePool fetch rest acc
    | some c =>
      if c.dur ≤ 0 then acquirePool fetch rest acc
      else
        if 12 ≤ (acc ++ [c]).length then acc ++ [c]
        else acquirePool fetch rest (acc ++ [c])

/-- Per-run environment: the outcomes of the external effects of attempt
number `k` (1-based, matching the `attempts` counter of main.py line 329). -/
structure RunEnv where
  providers : Nat → List (List String)
  shuffle : List String → List String
  fetch : Nat → String → Option Clip
  env : Nat → Env

/-- The body of one iteration of the retry loop of
`pick_and_download_for_type` (main.py lines 329-473) for the long/very-long
categories: gather candidates (retry when empty, line 340), download and
qualify a pool (retry when empty, line 359), then run the assembly states. -/
def attemptStep (re : RunEnv) (vt : VType) (mdb mn mx : ℚ) (k : Nat) :
    Option (MediaFile × StateTag) :=
  if (gatherCandidates (re.providers k) re.shuffle).isEmpty then none
  else
    if (acquirePool (re.fetch k) (attemptedUrls (re.providers k) re.shuffle) []).isEmpty then
      none
    else
      assembleLV (re.env k) vt mdb mn mx
        (acquirePool (re.fetch k) (attemptedUrls (re.providers k) re.shuffle) [])

/-- The bounded retry loop `attempts = 0; while attempts < try_count:
attempts += 1; ...` (main.py lines 327-329 and 475), recursing on the
remaining iteration budget.  Returns the produced result (or `none` after
exhaustion, line 475) together with the number of attempts performed. -/
def retryLoop (step : Nat → Option (MediaFile × StateTag)) :
    Nat → Nat → Option (MediaFile × StateTag) × Nat
  | 0, attempts => (none, attempts)
  | n + 1, attempts =>
    match step (attempts + 1) with
    | some r => (some r, attempts + 1)
    | none => retryLoop step n (attempts + 1)

/-- The whole retry orchestrator `pick_and_download_for_type` (main.py
lines 325-475) for the long/very-long categories. -/
def pick_and_download_for_type (re : RunEnv) (vt : VType) (mdb mn mx : ℚ)
    (tryCount : Nat) : Option (MediaFile × StateTag) × Nat :=
  retryLoop (attemptStep re vt mdb mn mx) tryCount 0

/-- An environment in which every external operation succeeds, every
produced file has a loud (-20 dB) audio track, and re-encoding reproduces
the source clip's audio properties. -/
def okEnv : Env where
  silenceSrc := fun _ => false
  reencode := fun c => some (c.hasAudio, c.mv)
  silenceRe := fun _ => false
  trimOk := fun _ => true
  concatMeta := fun _ => some (true, some (-20))
  overlayMeta := fun _ => some (some (-20))
  bgMeta := fun _ => some (true, some (-20))
  loopMeta := fun _ => some (true, some (-20))

/-! ### Basic lemmas about the embedded operations -/

theorem ratFloor_eq_intFloor (q : ℚ) : q.floor = ⌊q⌋ := by
  rw [Rat.floor_def' q, Rat.floor_def]

/-- Every concatenation segment is at most the 180-second cap. -/
theorem segLen_le (c : Clip) : segLen c ≤ 180 := by
  unfold segLen
  rw [ratFloor_eq_intFloor]
  calc ⌊min c.dur 180⌋ ≤ ⌊(180 : ℚ)⌋ := Int.floor_mono (min_le_right _ _)
    _ = 180 := by norm_num

/-- Starting strictly below the target, the accumulated total overshoots the
target by less than one segment cap: the loop stops as soon as the total
reaches `mn`, and the final step adds at most 180. -/
theorem accumulate_snd_lt (trimOk : Clip → Bool) (mn : ℚ) :
    ∀ (l : List Clip) (t0 : ℤ), (t0 : ℚ) < mn →
      (((accumulate trimOk mn l t0).2 : ℤ) : ℚ) < mn + 180
  | [], t0, h => by
    simp only [accumulate]
    linarith
  | c :: rest, t0, h => by
    rw [accumulate]
    by_cases htr : trimOk c = true
    · rw [if_pos htr]
      by_cases hst : mn ≤ ((t0 + segLen c : ℤ) : ℚ)
      · rw [if_pos hst]
        have hs : ((segLen c : ℤ) : ℚ) ≤ 180 := by exact_mod_cast segLen_le c
        show ((t0 + segLen c : ℤ) : ℚ) < mn + 180
        push_cast
        push_cast at h hs
        linarith
      · rw [if_neg hst]
        exact accumulate_snd_lt trimOk mn rest (t0 + segLen c) (lt_of_not_le hst)
    · rw [if_neg htr]
      exact accumulate_snd_lt trimOk mn rest t0 h

/-- Characterisation of a successful single-clip candidate loop: the result
comes from some candidate in the list that had no long silence, re-encoded
successfully, passed the audio gate, had no long silence after re-encoding,
and was hard-trimmed to `mx` exactly when its duration exceeded `mx`. -/
theorem singleFitLoop_spec (env : Env) (mdb mx : ℚ) :
    ∀ (l : List Clip) (f : MediaFile), singleFitLoop env mdb mx l = some f →
      ∃ c, c ∈ l ∧ env.silenceSrc c = false ∧
        ∃ ha mv, env.reencode c = some (ha, mv) ∧
          audio_ok ⟨c.dur, ha, mv⟩ mdb = true ∧
          env.silenceRe ⟨c.dur, ha, mv⟩ = false ∧
          f = if mx < c.dur then trimTo ⟨c.dur, ha, mv⟩ mx else ⟨c.dur, ha, mv⟩ := by
  intro l
  induction l with
  | nil => intro f h; simp [singleFitLoop] at h
  | cons c rest ih =>
    intro f h
    rw [singleFitLoop] at h
    by_cases hs : env.silenceSrc c = true
    · rw [if_pos hs] at h
      obtain ⟨c', hc', hrest⟩ := ih f h
      exact ⟨c', List.mem_cons_of_mem _ hc', hrest⟩
    · rw [if_neg hs] at h
      cases hre : env.reencode c with
      | none =>
        simp only [hre] at h
        obtain ⟨c', hc', hrest⟩ := ih f h
        exact ⟨c', List.mem_cons_of_mem _ hc', hrest⟩
      | some p =>
        obtain ⟨ha, mv⟩ := p
        simp only [hre] at h
        by_cases hg : (audio_ok ⟨c.dur, ha, mv⟩ mdb && !env.silenceRe ⟨c.dur, ha, mv⟩) = true
        · rw [if_pos hg] at h
          have hg2 := hg
          rw [Bool.and_eq_true] at hg2
          obtain ⟨hga, hgs⟩ := hg2
          have hgs' : env.silenceRe ⟨c.dur, ha, mv⟩ = false := by
            cases hsr : env.silenceRe ⟨c.dur, ha, mv⟩
            · rfl
            · rw [hsr] at hgs; exact Bool.noConfusion hgs
          have hs' : env.silenceSrc c = false := by
            cases hsv : env.silenceSrc c
            · rfl
            · exact absurd hsv hs
          refine ⟨c, List.mem_cons_self c rest, hs', ha, mv, hre, hga, hgs', ?_⟩
          by_cases hx : mx < c.dur
          · rw [if_pos hx] at h ⊢
            exact (Option.some.injEq _ _ ▸ h).symm
          · rw [if_neg hx] at h ⊢
            exact (Option.some.injEq _ _ ▸ h).symm
        · rw [if_neg hg] at h
          obtain ⟨c', hc', hrest⟩ := ih f h
          exact ⟨c', List.mem_cons_of_mem _ hc', hrest⟩

/-- Membership in the sorted single-clip candidate list is exactly: a pool
member passing the line-397 filter. -/
theorem mem_singleCandidates (mdb mn : ℚ) (pool : List Clip) (c : Clip) :
    c ∈ singleCandidates mdb mn pool ↔ c ∈ pool ∧ singlesPred mdb mn c = true := by
  unfold singleCandidates
  rw [List.mem_insertionSort SingleLe, List.mem_filter]

/-- The single-clip candidate list is sorted by descending duration. -/
theorem singleCandidates_sorted_dur (mdb mn : ℚ) (pool : List Clip) :
    (singleCandidates mdb mn pool).Pairwise (fun a b => b.dur ≤ a.dur) := by
  have hs : (singleCandidates mdb mn pool).Sorted SingleLe :=
    List.sorted_insertionSort SingleLe _
  exact List.Pairwise.imp
    (fun hab => hab.elim le_of_lt (fun hab2 => le_of_eq hab2.1.symm)) hs

/-- A successful SingleClipFit result passes the gate and lies in the band. -/
theorem singleClipFit_spec (env : Env) (mdb mn mx : ℚ) (pool : List Clip) (f : MediaFile)
    (hband : mn ≤ mx) (h : singleClipFit env mdb mn mx pool = some f) :
    audio_ok f mdb = true ∧ mn ≤ f.dur ∧ f.dur ≤ mx := by
  obtain ⟨c, hc, _, ha, mv, _, hok, _, hf⟩ := singleFitLoop_spec env mdb mx _ f h
  have hcp := (mem_singleCandidates mdb mn pool c).mp hc
  have hdur : mn ≤ c.dur := by
    have h2 := hcp.2
    rw [singlesPred, Bool.and_eq_true] at h2
    exact of_decide_eq_true h2.1
  by_cases hx : mx < c.dur
  · rw [if_pos hx] at hf
    subst hf
    refine ⟨hok, ?_, ?_⟩
    · show mn ≤ min c.dur mx
      exact le_min hdur hband
    · show min c.dur mx ≤ mx
      exact min_le_right _ _
  · rw [if_neg hx] at hf
    subst hf
    exact ⟨hok, hdur, le_of_not_lt hx⟩

/-- A successful background-music fallback keeps the combined duration,
passes the gate, and is tagged `bgFallback`. -/
theorem bgStep_spec (env : Env) (mdb : ℚ) (combined f : MediaFile) (tag : StateTag)
    (h : bgStep env mdb combined = some (f, tag)) :
    f.dur = combined.dur ∧ audio_ok f mdb = true ∧ tag = StateTag.bgFallback := by
  unfold bgStep at h
  cases hbg : env.bgMeta combined with
  | none => simp [hbg] at h
  | some p =>
    obtain ⟨ha, mv⟩ := p
    simp only [hbg] at h
    by_cases hok : audio_ok ⟨combined.dur, ha, mv⟩ mdb = true
    · rw [if_pos hok] at h
      simp only [Option.some.injEq, Prod.mk.injEq] at h
      obtain ⟨rfl, rfl⟩ := h
      exact ⟨rfl, hok, rfl⟩
    · rw [if_neg hok] at h
      exact Option.noConfusion h

/-- Any result of the concatenation return path has the accumulated total
as duration, passes the gate, and carries a concatenation-family tag. -/
theorem concatPath_spec (env : Env) (mdb : ℚ) (segs : List Clip) (total : ℤ)
    (f : MediaFile) (tag : StateTag)
    (h : concatPath env mdb segs total = some (f, tag)) :
    f.dur = (total : ℚ) ∧ audio_ok f mdb = true ∧
      (tag = StateTag.concatenated ∨ tag = StateTag.overlay ∨ tag = StateTag.bgFallback) := by
  unfold concatPath at h
  cases hcm : env.concatMeta segs with
  | none => simp [hcm] at h
  | some p =>
    obtain ⟨ha, mv⟩ := p
    simp only [hcm] at h
    by_cases hok : audio_ok ⟨(total : ℚ), ha, mv⟩ mdb = true
    · rw [if_pos hok] at h
      simp only [Option.some.injEq, Prod.mk.injEq] at h
      obtain ⟨rfl, rfl⟩ := h
      exact ⟨rfl, hok, Or.inl rfl⟩
    · rw [if_neg hok] at h
      cases hov : env.overlayMeta ⟨(total : ℚ), ha, mv⟩ with
      | none =>
        simp only [hov] at h
        obtain ⟨hd, hok2, htag⟩ := bgStep_spec env mdb _ f tag h
        exact ⟨hd, hok2, Or.inr (Or.inr htag)⟩
      | some omv =>
        simp only [hov] at h
        by_cases hok2 : audio_ok ⟨(total : ℚ), true, omv⟩ mdb = true
        · rw [if_pos hok2] at h
          simp only [Option.some.injEq, Prod.mk.injEq] at h
          obtain ⟨rfl, rfl⟩ := h
          exact ⟨rfl, hok2, Or.inr (Or.inl rfl)⟩
        · rw [if_neg hok2] at h
          obtain ⟨hd, hok3, htag⟩ := bgStep_spec env mdb _ f tag h
          exact ⟨hd, hok3, Or.inr (Or.inr htag)⟩

/-- Any result of the loop-extension fallback is tagged `looped`, has
duration `int(target_min_s)`, passes the gate, and is built from the
`loopBest` clip. -/
theorem loopPath_spec (env : Env) (mdb mn : ℚ) (acc : List Clip) (f : MediaFile)
    (tag : StateTag) (h : loopPath env mdb mn acc = some (f, tag)) :
    tag = StateTag.looped ∧ f.dur = ((mn.floor : ℤ) : ℚ) ∧ audio_ok f mdb = true ∧
      ∃ b, loopBest acc = some b ∧ ∃ ha mv, env.loopMeta b = some (ha, mv) ∧
        f = ⟨((mn.floor : ℤ) : ℚ), ha, mv⟩ := by
  unfold loopPath at h
  cases hb : loopBest acc with
  | none => simp [hb] at h
  | some best =>
    simp only [hb] at h
    cases hlm : env.loopMeta best with
    | none => simp [hlm] at h
    | some p =>
      obtain ⟨ha, mv⟩ := p
      simp only [hlm] at h
      by_cases hok : audio_ok ⟨((mn.floor : ℤ) : ℚ), ha, mv⟩ mdb = true
      · rw [if_pos hok] at h
        simp only [Option.some.injEq, Prod.mk.injEq] at h
        obtain ⟨rfl, rfl⟩ := h
        exact ⟨rfl, rfl, hok, best, rfl, ha, mv, hlm, rfl⟩
      · rw [if_neg hok] at h
        exact Option.noConfusion h

/-- Summary of the concatenation-or-loop part of an attempt. -/
theorem concatOrLoop_spec (env : Env) (mdb mn : ℚ) (pool : List Clip)
    (f : MediaFile) (tag : StateTag)
    (h : concatOrLoop env mdb mn pool = some (f, tag)) :
    audio_ok f mdb = true ∧ tag ≠ StateTag.single ∧
      ((tag = StateTag.concatenated ∨ tag = StateTag.overlay ∨ tag = StateTag.bgFallback) →
        mn ≤ f.dur ∧
        f.dur = (((accumulate env.trimOk mn (pool.filter (preFilterPass mdb)) 0).2 : ℤ) : ℚ)) ∧
      (tag = StateTag.looped → f.dur = ((mn.floor : ℤ) : ℚ)) := by
  unfold concatOrLoop at h
  by_cases hemp : (pool.filter (preFilterPass mdb)).isEmpty = true
  · rw [if_pos hemp] at h; exact Option.noConfusion h
  · rw [if_neg hemp] at h
    by_cases htot :
        mn ≤ (((accumulate env.trimOk mn (pool.filter (preFilterPass mdb)) 0).2 : ℤ) : ℚ)
    · rw [if_pos htot] at h
      obtain ⟨hd, hok, htag⟩ := concatPath_spec env mdb _ _ f tag h
      refine ⟨hok, ?_, fun _ => ⟨hd.symm ▸ htot, hd⟩, ?_⟩
      · rcases htag with rfl | rfl | rfl <;> simp
      · intro hlp; rcases htag with rfl | rfl | rfl <;> exact StateTag.noConfusion hlp
    · rw [if_neg htot] at h
      obtain ⟨htag, hd, hok, _⟩ := loopPath_spec env mdb mn _ f tag h
      subst htag
      refine ⟨hok, by simp, ?_, fun _ => hd⟩
      intro hc; rcases hc with hc | hc | hc <;> exact StateTag.noConfusion hc

/-- When the accumulated total stays below the target, only the
loop-extension fallback can produce a result. -/
theorem concatOrLoop_low_total (env : Env) (mdb mn : ℚ) (pool : List Clip)
    (f : MediaFile) (tag : StateTag)
    (hlow : ¬ mn ≤ (((accumulate env.trimOk mn (pool.filter (preFilterPass mdb)) 0).2 : ℤ) : ℚ))
    (h : concatOrLoop env mdb mn pool = some (f, tag)) :
    tag = StateTag.looped := by
  unfold concatOrLoop at h
  by_cases hemp : (pool.filter (preFilterPass mdb)).isEmpty = true
  · rw [if_pos hemp] at h; exact Option.noConfusion h
  · rw [if_neg hemp] at h
    rw [if_neg hlow] at h
    exact (loopPath_spec env mdb mn _ f tag h).1

/-- A `looped` attempt result comes from the loop fallback. -/
theorem concatOrLoop_looped (env : Env) (mdb mn : ℚ) (pool : List Clip) (f : MediaFile)
    (h : concatOrLoop env mdb mn pool = some (f, StateTag.looped)) :
    loopPath env mdb mn (pool.filter (preFilterPass mdb)) = some (f, StateTag.looped) := by
  unfold concatOrLoop at h
  by_cases hemp : (pool.filter (preFilterPass mdb)).isEmpty = true
  · rw [if_pos hemp] at h; exact Option.noConfusion h
  · rw [if_neg hemp] at h
    by_cases htot :
        mn ≤ (((accumulate env.trimOk mn (pool.filter (preFilterPass mdb)) 0).2 : ℤ) : ℚ)
    · rw [if_pos htot] at h
      obtain ⟨_, _, htag⟩ := concatPath_spec env mdb _ _ f _ h
      rcases htag with h1 | h1 | h1 <;> exact StateTag.noConfusion h1
    · rw [if_neg htot] at h
      exact h

theorem assembleLV_long (env : Env) (mdb mn mx : ℚ) (pool : List Clip) :
    assembleLV env VType.long mdb mn mx pool =
      match singleClipFit env mdb mn mx pool with
      | some f => some (f, StateTag.single)
      | none => concatOrLoop env mdb mn pool := rfl

theorem assembleLV_very_long (env : Env) (mdb mn mx : ℚ) (pool : List Clip) :
    assembleLV env VType.very_long mdb mn mx pool = concatOrLoop env mdb mn pool := rfl

/-- A successful attempt result either came from SingleClipFit (only in the
long category) or from the concatenation-or-loop part. -/
theorem assembleLV_cases (env : Env) (vt : VType) (mdb mn mx : ℚ) (pool : List Clip)
    (f : MediaFile) (tag : StateTag)
    (h : assembleLV env vt mdb mn mx pool = some (f, tag)) :
    (tag = StateTag.single ∧ vt = VType.long ∧ singleClipFit env mdb mn mx pool = some f) ∨
      concatOrLoop env mdb mn pool = some (f, tag) := by
  cases vt with
  | long =>
    rw [assembleLV_long] at h
    cases hs : singleClipFit env mdb mn mx pool with
    | some g =>
      simp only [hs] at h
      simp only [Option.some.injEq, Prod.mk.injEq] at h
      obtain ⟨rfl, rfl⟩ := h
      exact Or.inl ⟨rfl, rfl, rfl⟩
    | none =>
      simp only [hs] at h
      exact Or.inr h
  | very_long =>
    rw [assembleLV_very_long] at h
    exact Or.inr h

/-- The head of the loop-fallback sort is minimal for `LoopLe` over the
whole acceptable pool. -/
theorem loopBest_min (acc : List Clip) (b : Clip) (hb : loopBest acc = some b) :
    ∀ c ∈ acc, LoopLe b c := by
  intro c hc
  have hmem : c ∈ List.insertionSort LoopLe acc := (List.mem_insertionSort LoopLe).mpr hc
  have hsort : (List.insertionSort LoopLe acc).Sorted LoopLe :=
    List.sorted_insertionSort LoopLe acc
  unfold loopBest at hb
  cases hsl : List.insertionSort LoopLe acc with
  | nil => rw [hsl] at hb; exact Option.noConfusion hb
  | cons x t =>
    rw [hsl] at hb hmem hsort
    obtain rfl : x = b := by simpa using hb
    rcases List.mem_cons.mp hmem with rfl | ht
    · exact LoopLe_refl c
    · exact (List.sorted_cons.mp hsort).1 c ht

/-- Invariant of the download loop: every pool member has positive probed
duration, because `dur <= 0` downloads are discarded at line 354. -/
theorem acquirePool_pos (fetch : String → Option Clip) :
    ∀ (urls : List String) (acc : List Clip),
      (∀ x ∈ acc, 0 < x.dur) → ∀ x ∈ acquirePool fetch urls acc, 0 < x.dur := by
  intro urls
  induction urls with
  | nil =>
    intro acc hacc x hx
    rw [acquirePool] at hx
    exact hacc x hx
  | cons u rest ih =>
    intro acc hacc x hx
    rw [acquirePool] at hx
    cases hf : fetch u with
    | none =>
      simp only [hf] at hx
      exact ih acc hacc x hx
    | some c =>
      simp only [hf] at hx
      by_cases hd : c.dur ≤ 0
      · rw [if_pos hd] at hx
        exact ih acc hacc x hx
      · rw [if_neg hd] at hx
        have hacc2 : ∀ y ∈ acc ++ [c], 0 < y.dur := by
          intro y hy
          rcases List.mem_append.mp hy with hy | hy
          · exact hacc y hy
          · rw [List.mem_singleton.mp hy]
            exact lt_of_not_le hd
        by_cases hlen : 12 ≤ (acc ++ [c]).length
        · rw [if_pos hlen] at hx
          exact hacc2 x hx
        · rw [if_neg hlen] at hx
          exact ih (acc ++ [c]) hacc2 x hx

/-- The retry loop performs at most its iteration budget. -/
theorem retryLoop_le (step : Nat → Option (MediaFile × StateTag)) :
    ∀ (n a : Nat), (retryLoop step n a).2 ≤ a + n := by
  intro n
  induction n with
  | zero => intro a; simp [retryLoop]
  | succ m ih =>
    intro a
    rw [retryLoop]
    cases hs : step (a + 1) with
    | some r =>
      show a + 1 ≤ a + (m + 1)
      omega
    | none =>
      have hih := ih (a + 1)
      show (retryLoop step m (a + 1)).2 ≤ a + (m + 1)
      omega

/-- When every attempt fails, the retry loop uses its whole budget and
returns an explicit failure. -/
theorem retryLoop_all_none (step : Nat → Option (MediaFile × StateTag))
    (hstep : ∀ k, step k = none) :
    ∀ (n a : Nat), retryLoop step n a = (none, a + n) := by
  intro n
  induction n with
  | zero => intro a; simp [retryLoop]
  | succ m ih =>
    intro a
    rw [retryLoop]
    simp only [hstep (a + 1)]
    rw [ih (a + 1)]
    have : a + 1 + m = a + (m + 1) := by omega
    rw [this]

/-! ### Claim C1 -/

/-- C1, counterexample.  The claim states that any non-loop result's
duration is at most `band.max`, and that a combined concatenation file
exceeding `band.max` is hard-trimmed down to `band.max` before being
returned.  With band `[200, 210]` and two 190-second acceptable clips, the
concatenation state accumulates two 180-second segments (total 360), the
combined file passes the gate, and the 360-second file is returned as the
`concatenated` result with no trim: 360 exceeds `band.max = 210`. -/
theorem c1_no_hardtrim_cex :
    assembleLV okEnv VType.very_long (-60) 200 210
        [⟨190, true, some (-30)⟩, ⟨190, true, some (-30)⟩] =
      some (⟨360, true, some (-20)⟩, StateTag.concatenated) ∧
      ¬ ((360 : ℚ) ≤ 210) :=
  ⟨by decide, by norm_num⟩

/-- C1, amended.  Every successful long/very-long assembly result passes
the audio gate.  A SingleClipFit result lies within `[band.min, band.max]`
(hard-trimmed to `band.max` when over).  A concatenation-family result
(`concatenated`, `overlay` or `bgFallback`) has duration at least
`band.min` and below `band.min + 180`, but is never trimmed to `band.max`,
so it can exceed `band.max` whenever `band.max < band.min + 180`.  A
loop-extension result has duration exactly `int(band.min)`. -/
theorem c1_gate_and_band (env : Env) (vt : VType) (mdb mn mx : ℚ) (pool : List Clip)
    (f : MediaFile) (tag : StateTag)
    (hband : mn ≤ mx) (hpos : 0 < mn)
    (h : assembleLV env vt mdb mn mx pool = some (f, tag)) :
    audio_ok f mdb = true ∧
      (tag = StateTag.single → mn ≤ f.dur ∧ f.dur ≤ mx) ∧
      ((tag = StateTag.concatenated ∨ tag = StateTag.overlay ∨ tag = StateTag.bgFallback) →
        mn ≤ f.dur ∧ f.dur < mn + 180) ∧
      (tag = StateTag.looped → f.dur = ((mn.floor : ℤ) : ℚ)) := by
  rcases assembleLV_cases env vt mdb mn mx pool f tag h with ⟨htag, _, hs⟩ | hcl
  · subst htag
    obtain ⟨hok, hd1, hd2⟩ := singleClipFit_spec env mdb mn mx pool f hband hs
    refine ⟨hok, fun _ => ⟨hd1, hd2⟩, ?_, ?_⟩
    · intro hcon
      rcases hcon with hcon | hcon | hcon <;> exact StateTag.noConfusion hcon
    · intro hcon
      exact StateTag.noConfusion hcon
  · obtain ⟨hok, hns, hconc, hloop⟩ := concatOrLoop_spec env mdb mn pool f tag hcl
    refine ⟨hok, fun h1 => absurd h1 hns, ?_, hloop⟩
    intro h1
    obtain ⟨hge, heq⟩ := hconc h1
    refine ⟨hge, ?_⟩
    rw [heq]
    exact accumulate_snd_lt env.trimOk mn _ 0 (by exact_mod_cast hpos)

/-- C1, witness: a concrete single-clip success of the amended theorem. -/
theorem c1_gate_and_band_witness :
    audio_ok ⟨250, true, some (-30)⟩ (-60) = true ∧
      (StateTag.single = StateTag.single →
        (100 : ℚ) ≤ (⟨250, true, some (-30)⟩ : MediaFile).dur ∧
        (⟨250, true, some (-30)⟩ : MediaFile).dur ≤ 300) ∧
      ((StateTag.single = StateTag.concatenated ∨ StateTag.single = StateTag.overlay ∨
          StateTag.single = StateTag.bgFallback) →
        (100 : ℚ) ≤ (⟨250, true, some (-30)⟩ : MediaFile).dur ∧
        (⟨250, true, some (-30)⟩ : MediaFile).dur < 100 + 180) ∧
      (StateTag.single = StateTag.looped →
        (⟨250, true, some (-30)⟩ : MediaFile).dur = (((100 : ℚ).floor : ℤ) : ℚ)) :=
  c1_gate_and_band okEnv VType.long (-60) 100 300 [⟨250, true, some (-30)⟩]
    ⟨250, true, some (-30)⟩ StateTag.single (by norm_num) (by norm_num) (by decide)

/-! ### Claim C2 -/

/-- C2: the concatenation state never returns a result shorter than
`band.min` (a total of exactly `band.min` is accepted, as the witness
shows); each segment is trimmed to at most the 180-second cap; and when the
accumulated total over all acceptable clips stays below `band.min`, no
concatenation-family result is produced — only the loop fallback can
return. -/
theorem c2_concat_lower_bound (env : Env) (vt : VType) (mdb mn mx : ℚ) (pool : List Clip)
    (f : MediaFile) (tag : StateTag)
    (h : assembleLV env vt mdb mn mx pool = some (f, tag)) :
    ((tag = StateTag.concatenated ∨ tag = StateTag.overlay ∨ tag = StateTag.bgFallback) →
        mn ≤ f.dur) ∧
      (∀ c : Clip, segLen c ≤ 180) ∧
      (tag ≠ StateTag.single →
        ¬ mn ≤ (((accumulate env.trimOk mn (pool.filter (preFilterPass mdb)) 0).2 : ℤ) : ℚ) →
        tag = StateTag.looped) := by
  refine ⟨?_, fun c => segLen_le c, ?_⟩
  · intro h1
    rcases assembleLV_cases env vt mdb mn mx pool f tag h with ⟨htag, _, _⟩ | hcl
    · subst htag
      rcases h1 with h1 | h1 | h1 <;> exact StateTag.noConfusion h1
    · exact ((concatOrLoop_spec env mdb mn pool f tag hcl).2.2.1 h1).1
  · intro h1 h2
    rcases assembleLV_cases env vt mdb mn mx pool f tag h with ⟨htag, _, _⟩ | hcl
    · exact absurd htag h1
    · exact concatOrLoop_low_total env mdb mn pool f tag h2 hcl

/-- C2, witness: a run whose accumulated total equals `band.min` exactly
(180 = 180) is accepted and returned by the concatenation state. -/
theorem c2_concat_lower_bound_witness :
    ((StateTag.concatenated = StateTag.concatenated ∨
        StateTag.concatenated = StateTag.overlay ∨
        StateTag.concatenated = StateTag.bgFallback) →
      (180 : ℚ) ≤ (⟨180, true, some (-20)⟩ : MediaFile).dur) ∧
      (∀ c : Clip, segLen c ≤ 180) ∧
      (StateTag.concatenated ≠ StateTag.single →
        ¬ (180 : ℚ) ≤
          (((accumulate okEnv.trimOk 180
              (([⟨180, true, some (-30)⟩] : List Clip).filter (preFilterPass (-60))) 0).2 :
            ℤ) : ℚ) →
        StateTag.concatenated = StateTag.looped) :=
  c2_concat_lower_bound okEnv VType.very_long (-60) 180 400 [⟨180, true, some (-30)⟩]
    ⟨180, true, some (-20)⟩ StateTag.concatenated (by decide)

/-! ### Claim C3 -/

/-- C3, counterexample.  The claim requires a SingleClipFit candidate to
have duration at most `band.max`; the code's filter (line 397) has no upper
bound.  With band `[100, 300]`, a 400-second clip is a candidate
(400 > 300), is chosen, and is returned trimmed to 300. -/
theorem c3_no_upper_bound_cex :
    singleCandidates (-60) 100 [⟨400, true, some (-30)⟩] = [⟨400, true, some (-30)⟩] ∧
      ¬ ((400 : ℚ) ≤ 300) ∧
      assembleLV okEnv VType.long (-60) 100 300 [⟨400, true, some (-30)⟩] =
        some (⟨300, true, some (-30)⟩, StateTag.single) :=
  ⟨by decide, by norm_num, by decide⟩

/-- C3, amended.  A SingleClipFit candidate is exactly a pool clip with
duration at least `band.min` passing the audio pre-filter — there is no
`band.max` upper bound on candidacy (over-long winners are trimmed to
`band.max` after acceptance).  Candidates are tried in descending duration
order, and the winner is a candidate with no long silence whose re-encode
succeeded, passed the audio gate, and had no long silence after
re-encoding. -/
theorem c3_candidates_amended (env : Env) (mdb mn mx : ℚ) (pool : List Clip)
    (c : Clip) (f : MediaFile)
    (hc : c ∈ singleCandidates mdb mn pool)
    (hf : singleClipFit env mdb mn mx pool = some f) :
    (mn ≤ c.dur ∧ preFilterPass mdb c = true ∧ c ∈ pool) ∧
      (singleCandidates mdb mn pool).Pairwise (fun a b => b.dur ≤ a.dur) ∧
      ∃ c', c' ∈ singleCandidates mdb mn pool ∧ env.silenceSrc c' = false ∧
        ∃ ha mv, env.reencode c' = some (ha, mv) ∧
          audio_ok ⟨c'.dur, ha, mv⟩ mdb = true ∧
          env.silenceRe ⟨c'.dur, ha, mv⟩ = false ∧
          f = if mx < c'.dur then trimTo ⟨c'.dur, ha, mv⟩ mx else ⟨c'.dur, ha, mv⟩ := by
  obtain ⟨hcpool, hcpred⟩ := (mem_singleCandidates mdb mn pool c).mp hc
  have hcpred2 := hcpred
  rw [singlesPred, Bool.and_eq_true] at hcpred2
  refine ⟨⟨of_decide_eq_true hcpred2.1, hcpred2.2, hcpool⟩,
    singleCandidates_sorted_dur mdb mn pool, ?_⟩
  exact singleFitLoop_spec env mdb mx _ f hf

/-- C3, witness: concrete instantiation of the amended theorem on a
one-clip pool. -/
theorem c3_candidates_amended_witness :
    ((100 : ℚ) ≤ (⟨250, true, some (-30)⟩ : Clip).dur ∧
        preFilterPass (-60) ⟨250, true, some (-30)⟩ = true ∧
        (⟨250, true, some (-30)⟩ : Clip) ∈ ([⟨250, true, some (-30)⟩] : List Clip)) ∧
      (singleCandidates (-60) 100 [⟨250, true, some (-30)⟩]).Pairwise
        (fun a b => b.dur ≤ a.dur) ∧
      ∃ c', c' ∈ singleCandidates (-60) 100 [⟨250, true, some (-30)⟩] ∧
        okEnv.silenceSrc c' = false ∧
        ∃ ha mv, okEnv.reencode c' = some (ha, mv) ∧
          audio_ok ⟨c'.dur, ha, mv⟩ (-60) = true ∧
          okEnv.silenceRe ⟨c'.dur, ha, mv⟩ = false ∧
          (⟨250, true, some (-30)⟩ : MediaFile) =
            if (300 : ℚ) < c'.dur then trimTo ⟨c'.dur, ha, mv⟩ 300 else ⟨c'.dur, ha, mv⟩ :=
  c3_candidates_amended okEnv (-60) 100 300 [⟨250, true, some (-30)⟩]
    ⟨250, true, some (-30)⟩ ⟨250, true, some (-30)⟩ (by decide) (by decide)

/-! ### Claim C4 -/

/-- C4, counterexample.  The claim states that SingleClipFit is attempted
first for BOTH long and very-long.  On the same one-clip pool and band
`[100, 300]`, SingleClipFit has a passing candidate (the 250-second clip),
yet the very-long run skips it and returns a 180-second concatenation
result. -/
theorem c4_verylong_skips_single_cex :
    singleClipFit okEnv (-60) 100 300 [⟨250, true, some (-30)⟩] =
        some ⟨250, true, some (-30)⟩ ∧
      assembleLV okEnv VType.very_long (-60) 100 300 [⟨250, true, some (-30)⟩] =
        some (⟨180, true, some (-20)⟩, StateTag.concatenated) :=
  ⟨by decide, by decide⟩

/-- C4, amended.  Only the long category attempts SingleClipFit first: a
very-long run is the concatenation-or-loop part unconditionally; a long
run yields a non-single result only when SingleClipFit found nothing, and
whenever SingleClipFit finds a passing candidate the long run returns it. -/
theorem c4_state_order_amended (env : Env) (mdb mn mx : ℚ) (pool : List Clip)
    (f : MediaFile) (tag : StateTag)
    (h : assembleLV env VType.long mdb mn mx pool = some (f, tag)) :
    assembleLV env VType.very_long mdb mn mx pool = concatOrLoop env mdb mn pool ∧
      (tag ≠ StateTag.single → singleClipFit env mdb mn mx pool = none ∧
        concatOrLoop env mdb mn pool = some (f, tag)) ∧
      (∀ g, singleClipFit env mdb mn mx pool = some g →
        f = g ∧ tag = StateTag.single) := by
  refine ⟨assembleLV_very_long env mdb mn mx pool, ?_, ?_⟩
  · intro hne
    rw [assembleLV_long] at h
    cases hs : singleClipFit env mdb mn mx pool with
    | some g =>
      simp only [hs] at h
      simp only [Option.some.injEq, Prod.mk.injEq] at h
      exact absurd h.2.symm hne
    | none =>
      simp only [hs] at h
      exact ⟨rfl, h⟩
  · intro g hg
    rw [assembleLV_long] at h
    simp only [hg] at h
    simp only [Option.some.injEq, Prod.mk.injEq] at h
    exact ⟨h.1.symm, h.2.symm⟩

/-- C4, witness: concrete instantiation where SingleClipFit wins a long
run. -/
theorem c4_state_order_amended_witness :
    assembleLV okEnv VType.very_long (-60) 100 300 [⟨250, true, some (-30)⟩] =
        concatOrLoop okEnv (-60) 100 [⟨250, true, some (-30)⟩] ∧
      (StateTag.single ≠ StateTag.single →
        singleClipFit okEnv (-60) 100 300 [⟨250, true, some (-30)⟩] = none ∧
        concatOrLoop okEnv (-60) 100 [⟨250, true, some (-30)⟩] =
          some (⟨250, true, some (-30)⟩, StateTag.single)) ∧
      (∀ g, singleClipFit okEnv (-60) 100 300 [⟨250, true, some (-30)⟩] = some g →
        (⟨250, true, some (-30)⟩ : MediaFile) = g ∧
        StateTag.single = StateTag.single) :=
  c4_state_order_amended okEnv (-60) 100 300 [⟨250, true, some (-30)⟩]
    ⟨250, true, some (-30)⟩ StateTag.single (by decide)

/-! ### Claim C5 -/

/-- An environment in which re-encoding a 300-second clip produces a quiet
(-70 dB) audio track while re-encoding anything else produces a loud
(-30 dB) one, and the overlay always produces a loud (-20 dB) track. -/
def cex5Env : Env where
  silenceSrc := fun _ => false
  reencode := fun c => if c.dur = 300 then some (true, some (-70)) else some (true, some (-30))
  silenceRe := fun _ => false
  trimOk := fun _ => true
  concatMeta := fun _ => some (true, some (-20))
  overlayMeta := fun _ => some (some (-20))
  bgMeta := fun _ => some (true, some (-20))
  loopMeta := fun _ => some (true, some (-20))

/-- C5, counterexample.  The claim states that a SingleClipFit candidate
failing the audio gate enters FallbackAudioOverlay rather than being
discarded.  Here the first (300-second) candidate's re-encode measures
-70 dB and fails the -60 dB gate; the overlay (which would measure -20 dB
and pass) is never invoked: the candidate is discarded and the next
(250-second) candidate is returned as the single-clip result. -/
theorem c5_single_discard_cex :
    assembleLV cex5Env VType.long (-60) 100 400
        [⟨300, true, some (-30)⟩, ⟨250, true, some (-30)⟩] =
      some (⟨250, true, some (-30)⟩, StateTag.single) ∧
      audio_ok ⟨300, true, some (-70)⟩ (-60) = false ∧
      audio_ok ⟨300, true, some (-20)⟩ (-60) = true :=
  ⟨by decide, by decide, by decide⟩

/-- An environment whose combined concatenation file measures -70 dB
(failing the -60 dB gate) while the overlay produces a -20 dB track. -/
def quietEnv : Env where
  silenceSrc := fun _ => false
  reencode := fun _ => some (true, some (-70))
  silenceRe := fun _ => false
  trimOk := fun _ => true
  concatMeta := fun _ => some (true, some (-70))
  overlayMeta := fun _ => some (some (-20))
  bgMeta := fun _ => some (true, some (-70))
  loopMeta := fun _ => some (true, some (-70))

/-- C5, amended.  FallbackAudioOverlay is entered only from the
concatenation state: when the combined file fails the audio gate and the
overlay result passes it, the overlay result is returned.  A SingleClipFit
candidate whose re-encoded file fails the gate is simply discarded — the
candidate loop continues with the remaining candidates and no overlay is
attempted. -/
theorem c5_overlay_amended (env : Env) (mdb mx : ℚ) (segs : List Clip) (total : ℤ)
    (ha : Bool) (mv omv : Option ℚ) (c : Clip) (rest : List Clip)
    (rha : Bool) (rmv : Option ℚ)
    (hcm : env.concatMeta segs = some (ha, mv))
    (hfail : audio_ok ⟨(total : ℚ), ha, mv⟩ mdb = false)
    (hov : env.overlayMeta ⟨(total : ℚ), ha, mv⟩ = some omv)
    (hpass : audio_ok ⟨(total : ℚ), true, omv⟩ mdb = true)
    (hsil : env.silenceSrc c = false)
    (hre : env.reencode c = some (rha, rmv))
    (hbad : audio_ok ⟨c.dur, rha, rmv⟩ mdb = false) :
    concatPath env mdb segs total = some (⟨(total : ℚ), true, omv⟩, StateTag.overlay) ∧
      singleFitLoop env mdb mx (c :: rest) = singleFitLoop env mdb mx rest := by
  constructor
  · unfold concatPath
    simp only [hcm]
    rw [if_neg (by simp [hfail])]
    simp only [hov]
    rw [if_pos hpass]
  · rw [singleFitLoop]
    rw [if_neg (by simp [hsil])]
    simp only [hre]
    rw [if_neg (by simp [hbad])]

/-- C5, witness: concrete instantiation of the amended theorem with
`quietEnv`. -/
theorem c5_overlay_amended_witness :
    concatPath quietEnv (-60) [] 200 =
        some (⟨((200 : ℤ) : ℚ), true, some (-20)⟩, StateTag.overlay) ∧
      singleFitLoop quietEnv (-60) 400 [⟨30, true, some (-30)⟩] =
        singleFitLoop quietEnv (-60) 400 [] :=
  c5_overlay_amended quietEnv (-60) 400 [] 200 true (some (-70)) (some (-20))
    ⟨30, true, some (-30)⟩ [] true (some (-70))
    (by decide) (by decide) (by decide) (by decide) (by decide) (by decide) (by decide)

/-! ### Claim C6 -/

/-- C6, counterexample.  The claim says the loop fallback breaks duration
ties by HIGHEST mean loudness.  With two equal-duration clips at -30 dB and
-50 dB, the code's sort key `(-dur, mv or 0)` selects the -50 dB clip, the
LOWER loudness. -/
theorem c6_tiebreak_cex :
    loopBest [⟨100, true, some (-30)⟩, ⟨100, true, some (-50)⟩] =
        some ⟨100, true, some (-50)⟩ ∧
      ((-50 : ℚ) < -30) :=
  ⟨by decide, by norm_num⟩

/-- C6, amended.  The loop fallback selects from the audio-gated pool the
clip with the highest duration, breaking duration ties by the LOWEST
loudness key (recorded loudness, absent treated as 0 dB); it loops that
clip to `int(band.min)` seconds and the looped result passes the audio
gate applied once more. -/
theorem c6_loop_amended (env : Env) (vt : VType) (mdb mn mx : ℚ) (pool : List Clip)
    (f : MediaFile) (b : Clip)
    (hb : loopBest (pool.filter (preFilterPass mdb)) = some b)
    (h : assembleLV env vt mdb mn mx pool = some (f, StateTag.looped)) :
    (∀ c ∈ pool.filter (preFilterPass mdb), c.dur ≤ b.dur) ∧
      (∀ c ∈ pool.filter (preFilterPass mdb), c.dur = b.dur → mvKeyL b ≤ mvKeyL c) ∧
      f.dur = ((mn.floor : ℤ) : ℚ) ∧ audio_ok f mdb = true ∧
      ∃ ha mv, env.loopMeta b = some (ha, mv) ∧ f = ⟨((mn.floor : ℤ) : ℚ), ha, mv⟩ := by
  have hmin := loopBest_min _ b hb
  have hcl : concatOrLoop env mdb mn pool = some (f, StateTag.looped) := by
    rcases assembleLV_cases env vt mdb mn mx pool f StateTag.looped h with ⟨htag, _, _⟩ | hcl
    · exact StateTag.noConfusion htag
    · exact hcl
  have hlp := concatOrLoop_looped env mdb mn pool f hcl
  obtain ⟨_, hd, hok, b', hb', ha, mv, hlm, hfe⟩ := loopPath_spec env mdb mn _ f _ hlp
  obtain rfl : b' = b := by
    rw [hb] at hb'
    exact (Option.some.inj hb').symm
  refine ⟨?_, ?_, hd, hok, ha, mv, hlm, hfe⟩
  · intro c hc
    rcases hmin c hc with h1 | h1
    · exact le_of_lt h1
    · exact le_of_eq h1.1.symm
  · intro c hc he
    rcases hmin c hc with h1 | h1
    · rw [he] at h1
      exact absurd h1 (lt_irrefl _)
    · exact h1.2

/-- C6, witness: a concrete looped run hitting the amended theorem. -/
theorem c6_loop_amended_witness :
    (∀ c ∈ ([⟨100, true, some (-30)⟩] : List Clip).filter (preFilterPass (-60)),
        c.dur ≤ (⟨100, true, some (-30)⟩ : Clip).dur) ∧
      (∀ c ∈ ([⟨100, true, some (-30)⟩] : List Clip).filter (preFilterPass (-60)),
        c.dur = (⟨100, true, some (-30)⟩ : Clip).dur →
        mvKeyL ⟨100, true, some (-30)⟩ ≤ mvKeyL c) ∧
      (⟨500, true, some (-20)⟩ : MediaFile).dur = (((500 : ℚ).floor : ℤ) : ℚ) ∧
      audio_ok ⟨500, true, some (-20)⟩ (-60) = true ∧
      ∃ ha mv, okEnv.loopMeta ⟨100, true, some (-30)⟩ = some (ha, mv) ∧
        (⟨500, true, some (-20)⟩ : MediaFile) = ⟨(((500 : ℚ).floor : ℤ) : ℚ), ha, mv⟩ :=
  c6_loop_amended okEnv VType.long (-60) 500 600 [⟨100, true, some (-30)⟩]
    ⟨500, true, some (-20)⟩ ⟨100, true, some (-30)⟩ (by decide) (by decide)

/-! ### Claim C7 -/

/-- C7: every clip in the qualified pool produced by the download loop has
strictly positive probed duration — zero/negative-duration downloads are
deleted at line 354-355 and never appended. -/
theorem c7_pool_duration_pos (fetch : String → Option Clip) (urls : List String) (c : Clip)
    (hc : c ∈ acquirePool fetch urls []) : 0 < c.dur :=
  acquirePool_pos fetch urls []
    (fun x hx => absurd hx (List.not_mem_nil x)) c hc

/-- A download oracle returning a 5-second clip for the URL "good" and a
zero-duration clip for everything else. -/
def fetchW : String → Option Clip :=
  fun u => if u = "good" then some ⟨5, true, none⟩ else some ⟨0, true, none⟩

/-- C7, witness: the 5-second clip enters the pool (the zero-duration one
does not) and the theorem yields its positivity. -/
theorem c7_pool_duration_pos_witness :
    (⟨5, true, none⟩ : Clip) ∈ acquirePool fetchW ["bad", "good"] [] ∧
      0 < (⟨5, true, none⟩ : Clip).dur :=
  ⟨by decide, c7_pool_duration_pos fetchW ["bad", "good"] ⟨5, true, none⟩ (by decide)⟩

/-! ### Claim C8 -/

/-- C8, counterexample.  The claim states the aggregator removes exact
duplicates before shuffling, so the attempted URL list has no duplicates.
With two providers both returning "u" and the identity permutation as the
shuffle outcome, the attempted list is `["u", "u"]` — a duplicate. -/
theorem c8_no_dedup_cex :
    attemptedUrls [["u"], ["u"]] (fun l => l) = ["u", "u"] ∧
      ¬ (attemptedUrls [["u"], ["u"]] (fun l => l)).Nodup :=
  ⟨by decide, by decide⟩

/-- C8, amended.  The aggregator concatenates the per-provider lists,
shuffles the aggregate, and the download loop attempts at most
`MAX_DOWNLOAD_CANDIDATES` entries of it; no duplicate removal is applied to
the aggregate (only two scrapers dedup their own output internally), so
duplicates across providers survive.  The attempted list has at most
`MAX_DOWNLOAD_CANDIDATES` entries and every attempted URL comes from some
provider. -/
theorem c8_aggregate_amended (provs : List (List String))
    (shuffle : List String → List String)
    (hperm : ∀ l, (shuffle l).Perm l) :
    (attemptedUrls provs shuffle).length ≤ MAX_DOWNLOAD_CANDIDATES ∧
      ∀ u ∈ attemptedUrls provs shuffle, ∃ p, p ∈ provs ∧ u ∈ p := by
  constructor
  · exact List.length_take_le _ _
  · intro u hu
    unfold attemptedUrls at hu
    have h1 : u ∈ gatherCandidates provs shuffle := List.mem_of_mem_take hu
    have h2 : u ∈ provs.flatten := (hperm provs.flatten).subset h1
    exact List.mem_flatten.mp h2

/-- C8, witness: concrete instantiation with the identity shuffle. -/
theorem c8_aggregate_amended_witness :
    (attemptedUrls [["a"], ["b"]] (fun l => l)).length ≤ MAX_DOWNLOAD_CANDIDATES ∧
      ∀ u ∈ attemptedUrls [["a"], ["b"]] (fun l => l),
        ∃ p, p ∈ ([["a"], ["b"]] : List (List String)) ∧ u ∈ p :=
  c8_aggregate_amended [["a"], ["b"]] (fun l => l) (fun l => List.Perm.refl l)

/-! ### Claim C9 -/

/-- C9: the retry loop always terminates — any run performs at most
`tryCount` attempts — and when every attempt fails (here: every provider
returns an empty list on every attempt, so line 340's empty-candidates
check fires each time) the loop performs exactly `tryCount` attempts and
returns an explicit failure (`none`). -/
theorem c9_retry_bounded (re : RunEnv) (vt : VType) (mdb mn mx : ℚ) (tryCount : Nat)
    (hperm : ∀ l, (re.shuffle l).Perm l)
    (hempty : ∀ k, ∀ p ∈ re.providers k, p = ([] : List String)) :
    (∀ tc : Nat, (pick_and_download_for_type re vt mdb mn mx tc).2 ≤ tc) ∧
      pick_and_download_for_type re vt mdb mn mx tryCount = (none, tryCount) := by
  have hstep : ∀ k, attemptStep re vt mdb mn mx k = none := by
    intro k
    have hjoin : (re.providers k).flatten = [] :=
      List.flatten_eq_nil_iff.mpr (hempty k)
    have hg : gatherCandidates (re.providers k) re.shuffle = [] := by
      unfold gatherCandidates
      rw [hjoin]
      exact (hperm []).eq_nil
    unfold attemptStep
    rw [hg]
    simp
  constructor
  · intro tc
    have hle := retryLoop_le (attemptStep re vt mdb mn mx) tc 0
    unfold pick_and_download_for_type
    omega
  · have hall := retryLoop_all_none (attemptStep re vt mdb mn mx) hstep tryCount 0
    unfold pick_and_download_for_type
    rw [hall]
    rw [Nat.zero_add]

/-- A run environment whose providers always return empty lists. -/
def emptyRun : RunEnv where
  providers := fun _ => [[], []]
  shuffle := fun l => l
  fetch := fun _ _ => none
  env := fun _ => okEnv

/-- C9, witness: with all-empty providers and a budget of 3, the
orchestrator performs exactly 3 attempts and fails explicitly. -/
theorem c9_retry_bounded_witness :
    (∀ tc : Nat, (pick_and_download_for_type emptyRun VType.long (-60) 120 1800 tc).2 ≤ tc) ∧
      pick_and_download_for_type emptyRun VType.long (-60) 120 1800 3 = (none, 3) :=
  c9_retry_bounded emptyRun VType.long (-60) 120 1800 3 (fun l => List.Perm.refl l)
    (by
      intro k p hp
      rcases List.mem_cons.mp hp with h | h
      · exact h
      · exact List.mem_singleton.mp h)

/-! ### Claim C10 -/

/-- C10: a clip with an audio track but absent mean loudness passes the
audio pre-filter of both the single-clip path (line 397) and the
concatenation/loop path (line 418) — absent loudness is treated as passing
— even though `audio_ok` (lines 122-128) always rejects a file whose mean
loudness is absent. -/
theorem c10_absent_loudness_admitted (mdb mn : ℚ) (c : Clip) (f : MediaFile)
    (hA : c.hasAudio = true) (hN : c.mv = none) (hdur : mn ≤ c.dur) (hf : f.mv = none) :
    preFilterPass mdb c = true ∧ singlesPred mdb mn c = true ∧ audio_ok f mdb = false := by
  have h1 : preFilterPass mdb c = true := by
    unfold preFilterPass
    rw [hA, hN]
    rfl
  refine ⟨h1, ?_, ?_⟩
  · unfold singlesPred
    rw [h1, decide_eq_true hdur]
    rfl
  · unfold audio_ok
    rw [hf]
    split
    · rfl
    · rfl

/-- C10, witness: a 200-second clip with audio but unmeasured loudness is
admitted by both pre-filters while `audio_ok` rejects the corresponding
file. -/
theorem c10_absent_loudness_admitted_witness :
    preFilterPass (-60) ⟨200, true, none⟩ = true ∧
      singlesPred (-60) 120 ⟨200, true, none⟩ = true ∧
      audio_ok ⟨200, true, none⟩ (-60) = false :=
  c10_absent_loudness_admitted (-60) 120 ⟨200, true, none⟩ ⟨200, true, none⟩
    rfl rfl (by norm_num) rfl

end CalmLoop
